import Mathlib

/-!
Verification of the Resume_Matcher scoring and ranking pipeline.

Shallow embedding of the repository's Python sources:
 * `src/matching/scorer.py`   — `rule_skill_overlap`, `composite_score`
 * `src/matching/embedder.py` — `cosine` (dot product of embedding vectors)
 * `src/matching/llm_groq.py` — `llm_match_groq`
 * `src/parsers/extract.py`   — `ResumeParser.extract_experience` (total years)
 * `src/app.py`               — work-history deduplication in `upload_candidate`
                                and the `match_candidates` ranking route.

Modelling conventions:
 * Python floats are modelled as exact rationals (ℚ).
 * Python strings are modelled as Lean `String`; `str.lower()` / `str.strip()`
   are modelled character-wise over `String.data` (the sources only ever
   lowercase ASCII skill names, titles and company names).
 * Python sets are modelled as deduplicated lists; `len(set)` as
   `List.dedup.length` and set intersection cardinality by counting members.
 * `dict` results with a statically known key set are modelled as structures
   of `Option` fields; `d.get(k, default)` reads the field with a default.
 * Fallible calls return `Except`; an uncaught Python exception inside the
   route handler is `ApiError.internal` (FastAPI turns it into a 500).
 * Python's stable `list.sort(key=…, reverse=True)` is modelled by a stable
   descending insertion sort (stable sorting is unique as a function of the
   key sequence, so any faithful model agrees with CPython's timsort).
-/

/-- Python `str.lower()` on a single character, for the ASCII range the
sources operate over (skill names, job titles, company names). -/
def lowerChar (c : Char) : Char :=
  if 'A' ≤ c ∧ c ≤ 'Z' then Char.ofNat (c.toNat + 32) else c

/-- Python `s.lower()`: characterwise lowering of the string's characters. -/
def lowerStr (s : String) : List Char := s.data.map lowerChar

/-- Whitespace as Python `str.strip()` removes it. -/
def isWS (c : Char) : Bool := c = ' ' ∨ c = '\t' ∨ c = '\n' ∨ c = '\r'

/-- Python `s.strip()` on a character list: drop leading and trailing
whitespace. -/
def trimChars (l : List Char) : List Char :=
  ((l.dropWhile isWS).reverse.dropWhile isWS).reverse

/-- Python 3 `round()` to an integer: round half to even (the sources round
exact decimal values where the binary-float representation artefacts of
CPython do not arise). -/
def pyRoundInt (q : ℚ) : ℤ :=
  let f := ⌊q⌋
  let r := q - (f : ℚ)
  if r < 1/2 then f
  else if 1/2 < r then f + 1
  else if f % 2 = 0 then f else f + 1

/-- Python `round(q, d)`. -/
def roundTo (d : ℕ) (q : ℚ) : ℚ := (pyRoundInt (q * (10:ℚ)^d) : ℚ) / (10:ℚ)^d

/-- Model of `np.dot` on two equal-length vectors (`src/matching/embedder.py`, `cosine`:
the embeddings are produced normalized, and `cosine` is just the dot
product). -/
def dotList : List ℚ → List ℚ → ℚ
  | x :: xs, y :: ys => x * y + dotList xs ys
  | _, _ => 0

/-- Function `cosine(a, b)` from `src/matching/embedder.py`: `float(np.dot(a, b))`. -/
def cosine (a b : List ℚ) : ℚ := dotList a b

/-- The lowered skill list: `set(s.lower() for s in skills)` is modelled by
mapping `lowerStr` and deduplicating where a set's cardinality is taken. -/
def lowerList (l : List String) : List (List Char) := l.map lowerStr

/-- One coverage fraction of `rule_skill_overlap`:
`len(s & r) / (len(r) or 1)` where `s`, `r` are the lowered sets. The
numerator counts the distinct lowered target skills present in the
candidate's lowered skills; the denominator is `max(len(r), 1)` (Python's
`len(r) or 1`). -/
def coverOf (cand : List (List Char)) (target : List (List Char)) : ℚ :=
  ((target.dedup.filter (fun x => x ∈ cand)).length : ℚ) /
    ((max target.dedup.length 1 : ℕ) : ℚ)

/-- Function `rule_skill_overlap(c_skills, req, nice)` from `src/matching/scorer.py`:
returns `(req_cover, nice_cover)`. -/
def rule_skill_overlap (c_skills req nice : List String) : ℚ × ℚ :=
  (coverOf (lowerList c_skills) (lowerList req),
   coverOf (lowerList c_skills) (lowerList nice))

/-- The component breakdown `composite_score` returns
(`{"similarity", "req_cover", "nice_cover", "llm", "final"}`). -/
structure Comps where
  similarity : ℚ
  req_cover : ℚ
  nice_cover : ℚ
  llm : ℚ
  final : ℚ
deriving DecidableEq, Repr

/-- Normalization of the optional LLM fit score in `composite_score`:
`llm_norm = 0.0` when `llm_score is None`, else
`max(0.0, min(1.0, llm_score / 10.0))`. -/
def llmNorm : Option ℚ → ℚ
  | none => 0
  | some q => max 0 (min 1 (q / 10))

/-- Function `composite_score` from `src/matching/scorer.py` with the fixed weights
`w_sim, w_req, w_nice, w_llm = 0.45, 0.35, 0.1, 0.10`. -/
def composite_score (cand_embedding job_embedding : List ℚ)
    (c_skills req nice : List String) (llm_score : Option ℚ) : Comps :=
  let sim := cosine cand_embedding job_embedding
  let covers := rule_skill_overlap c_skills req nice
  let ln := llmNorm llm_score
  { similarity := sim
    req_cover := covers.1
    nice_cover := covers.2
    llm := ln
    final := 45/100 * sim + 35/100 * covers.1 + 1/10 * covers.2 + 1/10 * ln }

/-- Case-insensitive list inclusion: every skill of `r` appears, lowercased,
among the lowercased skills of `s` (the subset relation of the spec's
`req_cover(S,R)=1 iff R ⊆ S (case-insensitive)`). -/
def subsetCI (r s : List String) : Prop :=
  ∀ x ∈ r, lowerStr x ∈ lowerList s

-- ---------------------------------------------------------------------------
-- src/matching/llm_groq.py
-- ---------------------------------------------------------------------------

/-- A Python dict with the keys the matcher reads or writes
(`llm_match_groq`'s return value, and the sentinel dict built in
`match_candidates`); `none` models an absent key, and `d.get(k, default)`
reads the field with the default. -/
structure PyDict where
  bullets : Option (List String) := none
  summary_bullets : Option (List String) := none
  key_strengths : Option (List String) := none
  concerns : Option (List String) := none
  reasoning : Option String := none
  fit_score : Option ℚ := none
deriving DecidableEq, Repr

/-- How the `fit_score` value of the parsed response behaves under
`float(fit)` in `llm_match_groq`: the key is absent (the default 5 is used),
it converts to a number, `float` raises `ValueError` (a non-numeric string;
caught locally, 5.0 substituted), or `float` raises another exception such as
`TypeError` (a list/dict/None value; caught by the function's outer
`except`). -/
inductive FitField
  | absent
  | value (q : ℚ)
  | valueErr
  | typeErr
deriving DecidableEq, Repr

/-- The observable outcome of the HTTP call inside `llm_match_groq`'s `try`:
`failure` is any raised exception (timeout, network error,
`raise_for_status`, unparseable outer JSON, missing keys) with its message;
`response` is a parsed response dict — the case of a stringified JSON body
that fails to parse is `response [raw] (.value 5) []`, exactly the local
fallback dict the source builds. -/
inductive GroqCall
  | failure (msg : String)
  | response (bullets : List String) (fit : FitField) (concerns : List String)
deriving DecidableEq, Repr

/-- The clamp `fit = max(1.0, min(10.0, fit))` of `llm_match_groq`. -/
def clampFit (q : ℚ) : ℚ := max 1 (min 10 q)

/-- Function `llm_match_groq` from `src/matching/llm_groq.py`. Its whole body past the
prompt construction sits inside `try: … except Exception: return
{"bullets": [], "fit_score": 5, "concerns": [str(e)]}`, so the function is
total over call outcomes: it always returns a dict. -/
def llm_match_groq : GroqCall → PyDict
  | .failure msg => { bullets := some [], fit_score := some 5, concerns := some [msg] }
  | .response bs fit cs =>
    match fit with
    | .typeErr => { bullets := some [], fit_score := some 5,
                    concerns := some ["float() argument error"] }
    | .absent => { bullets := some bs, fit_score := some (clampFit 5), concerns := some cs }
    | .value q => { bullets := some bs, fit_score := some (clampFit q), concerns := some cs }
    | .valueErr => { bullets := some bs, fit_score := some (clampFit 5), concerns := some cs }

-- ---------------------------------------------------------------------------
-- src/parsers/extract.py — ResumeParser.extract_experience, total years
-- ---------------------------------------------------------------------------

/-- A matched `\d+(?:\.\d+)?` group: the integer-part value, the
fraction-part value and the number of fraction digits. -/
structure NumTok where
  ip : Nat
  fp : Nat
  fl : Nat
deriving DecidableEq, Repr

/-- The float value `float(match.group(1))` of a matched number. -/
def numTokVal (t : NumTok) : ℚ := (t.ip : ℚ) + (t.fp : ℚ) / (10:ℚ)^t.fl

/-- Digit test for the regex class `\d`. -/
def isDigit (c : Char) : Bool := '0' ≤ c ∧ c ≤ '9'

/-- Value of a digit run. -/
def digitsToNat (l : List Char) : Nat := l.foldl (fun a c => 10 * a + (c.toNat - 48)) 0

/-- Regex `\s*`: drop leading whitespace. -/
def skipWS (l : List Char) : List Char := l.dropWhile isWS

/-- Regex `(\d+(?:\.\d+)?)` at the current position (maximal munch; a dot not
followed by a digit is left unconsumed, as the optional group then fails). -/
def parseNumber (l : List Char) : Option (NumTok × List Char) :=
  let ds := l.takeWhile isDigit
  if ds = [] then none
  else
    let rest := l.drop ds.length
    match rest with
    | '.' :: r2 =>
      let fs := r2.takeWhile isDigit
      if fs = [] then some (⟨digitsToNat ds, 0, 0⟩, rest)
      else some (⟨digitsToNat ds, digitsToNat fs, fs.length⟩, r2.drop fs.length)
    | _ => some (⟨digitsToNat ds, 0, 0⟩, rest)

/-- Consume a literal word (the text is lowercased before scanning, matching
`re.IGNORECASE`). -/
def matchLit : List Char → List Char → Option (List Char)
  | [], l => some l
  | _ :: _, [] => none
  | w :: ws, c :: cs => if w = c then matchLit ws cs else none

/-- Regex `(?:word\s+)?`: optionally consume `word` followed by at least one
whitespace character (committed choice: the group is taken whenever it
matches here). -/
def matchOptWordWS (w : List Char) (l : List Char) : List Char :=
  match matchLit w l with
  | none => l
  | some r =>
    match r with
    | c :: _ => if isWS c then skipWS r else l
    | [] => l

/-- Regex `(?:years?|yrs?)`: `year`/`yr` with an optional trailing `s`. -/
def matchYearsWord : List Char → Option (List Char)
  | 'y' :: 'e' :: 'a' :: 'r' :: 's' :: rest => some rest
  | 'y' :: 'e' :: 'a' :: 'r' :: rest => some rest
  | 'y' :: 'r' :: 's' :: rest => some rest
  | 'y' :: 'r' :: rest => some rest
  | _ => none

/-- Pattern 1 of `extract_experience`, anchored at the current position:
`(?:total\s+)?experience\s*[:\-]?\s*(\d+(?:\.\d+)?)\+?\s*(?:years?|yrs?)`. -/
def matchP1At (l : List Char) : Option NumTok :=
  let l1 := matchOptWordWS ['t','o','t','a','l'] l
  (matchLit ['e','x','p','e','r','i','e','n','c','e'] l1).bind fun r0 =>
    let r1 := skipWS r0
    let r2 := match r1 with
              | ':' :: t => t
              | '-' :: t => t
              | _ => r1
    let r3 := skipWS r2
    (parseNumber r3).bind fun (q, r4) =>
      let r5 := match r4 with
                | '+' :: t => t
                | _ => r4
      let r6 := skipWS r5
      (matchYearsWord r6).map fun _ => q

/-- Pattern 2 of `extract_experience`, anchored at the current position:
`(\d+(?:\.\d+)?)\+?\s*(?:years?|yrs?)\s+(?:of\s+)?(?:total\s+)?experience`. -/
def matchP2At (l : List Char) : Option NumTok :=
  (parseNumber l).bind fun (q, r0) =>
    let r1 := match r0 with
              | '+' :: t => t
              | _ => r0
    let r2 := skipWS r1
    (matchYearsWord r2).bind fun r3 =>
      match r3 with
      | c :: _ =>
        if isWS c then
          let r4 := skipWS r3
          let r5 := matchOptWordWS ['o','f'] r4
          let r6 := matchOptWordWS ['t','o','t','a','l'] r5
          (matchLit ['e','x','p','e','r','i','e','n','c','e'] r6).map fun _ => q
        else none
      | [] => none

/-- Leftmost `re.search`: try the anchored matcher at every position, first
success wins. -/
def searchFrom (m : List Char → Option NumTok) : List Char → Option NumTok
  | [] => m []
  | c :: rest =>
    match m (c :: rest) with
    | some q => some q
    | none => searchFrom m rest

/-- The sanity-check filter of `extract_experience`: a matched value is
accepted only when `years > 0 and years < 50`. -/
def acceptRange (q : ℚ) : Option ℚ := if 0 < q ∧ q < 50 then some q else none

/-- The `total_years` result of `ResumeParser.extract_experience`
(`src/parsers/extract.py`): the two explicit patterns are tried in order;
the first pattern whose leftmost match passes the (0, 50) sanity check wins,
and when neither does, `total_years` stays `None` — there is no further
fallback in the source. -/
def extract_totalYears (text : String) : Option ℚ :=
  Option.orElse ((searchFrom matchP1At (lowerStr text)).bind fun t => acceptRange (numTokVal t))
    fun _ => (searchFrom matchP2At (lowerStr text)).bind fun t => acceptRange (numTokVal t)

/-- Occurrences of a word in a character list (number of positions where the
word starts). -/
def countSub : List Char → List Char → Nat
  | [], _ => 0
  | c :: rest, w =>
    (if (matchLit w (c :: rest)).isSome then 1 else 0) + countSub rest w

/-- Modelled from the spec: the role-keyword fallback the spec describes for
total experience years ("fall back to counting senior/role keyword
occurrences (Engineer/Developer/Intern/Manager) … half a year credited per
role-keyword occurrence", capped at 10.0). No such fallback exists anywhere
in the repository's sources; this definition exists only to be compared with
`extract_totalYears` above, which was translated from the source. -/
def specRoleKeywordFallback (text : String) : ℚ :=
  let t := lowerStr text
  let count := (countSub t ['e','n','g','i','n','e','e','r']) +
    (countSub t ['d','e','v','e','l','o','p','e','r']) +
    (countSub t ['i','n','t','e','r','n']) +
    (countSub t ['m','a','n','a','g','e','r'])
  min ((count : ℚ) / 2) 10

-- ---------------------------------------------------------------------------
-- src/app.py — work-history deduplication in upload_candidate
-- ---------------------------------------------------------------------------

/-- A work-history entry as `upload_candidate` reads it
(`entry.get("designation", "")`, `entry.get("company", "")`; the other dict
keys play no part in deduplication). -/
structure WorkEntry where
  designation : String
  company : String
deriving DecidableEq, Repr

/-- The normalization `value.lower().strip()` applied to each key part. -/
def normKey (s : String) : List Char := trimChars (lowerStr s)

/-- The loop body of the deduplication in `upload_candidate`
(`src/app.py` lines 134–158): entries with an empty normalized company or
designation are skipped; an entry is kept only when neither
`(company, designation)` nor `(designation, company)` has been seen, and
keeping it records both orientations. -/
def dedupGo : List (List Char × List Char) → List WorkEntry → List WorkEntry
  | _, [] => []
  | seen, e :: rest =>
    let c := normKey e.company
    let d := normKey e.designation
    if c = [] ∨ d = [] then dedupGo seen rest
    else if (c, d) ∈ seen ∨ (d, c) ∈ seen then dedupGo seen rest
    else e :: dedupGo ((c, d) :: (d, c) :: seen) rest

/-- The deduplicated work history stored for a candidate. -/
def dedupWorkHistory (l : List WorkEntry) : List WorkEntry := dedupGo [] l

/-- Two entries collide when their normalized `(company, designation)` pairs
are equal, or equal with the two components interchanged. -/
def dupEntry (a b : WorkEntry) : Prop :=
  (normKey a.company, normKey a.designation) = (normKey b.company, normKey b.designation) ∨
    (normKey a.company, normKey a.designation) = (normKey b.designation, normKey b.company)

-- ---------------------------------------------------------------------------
-- src/app.py — the /match/{job_id} ranking route
-- ---------------------------------------------------------------------------

/-- A stored candidate, with the fields `match_candidates` reads. -/
structure Candidate where
  id : Nat
  name : String
  skills : List String
  raw_text : String
  embedding : Option (List ℚ)
deriving DecidableEq, Repr

/-- A stored job, with the fields `match_candidates` reads. -/
structure Job where
  id : Nat
  title : String
  jd_text : String
  required_skills : List String
  nice_to_have_skills : List String
  embedding : Option (List ℚ)
deriving DecidableEq, Repr

/-- The candidate/job store as the route sees it. -/
structure DB where
  jobs : List Job
  candidates : List Candidate
deriving Repr

/-- Errors the route can produce: `badRequest` is HTTP 400, `notFound` is
HTTP 404 (carrying the job id rendered into the detail message), and
`internal` is an uncaught exception that FastAPI reports as HTTP 500. -/
inductive ApiError
  | badRequest (detail : String)
  | notFound (jobId : Nat)
  | internal
deriving DecidableEq, Repr

/-- One element of the ranked response (`schemas.MatchResult`): the
composite components rounded to 3 decimals, the final score scaled to
[0,100] and rounded to 2 decimals, and the justification text. -/
structure MatchResult where
  candidate_id : Nat
  candidate_name : String
  score : ℚ
  components : Comps
  justification : String
deriving DecidableEq, Repr

/-- Model of `s.get(Job, job_id)`: primary-key lookup in the job store. -/
def getJob : List Job → Nat → Option Job
  | [], _ => none
  | j :: js, jid => if j.id = jid then some j else getJob js jid

/-- One preliminarily scored candidate: the candidate, its embedding, the
job's embedding, and the preliminary final score (the `(candidate, final,
comps)` tuple of the source; the stored comps dict is recomputed in the
re-scoring loop and never read, so it is not carried). -/
structure PrelimEntry where
  cand : Candidate
  cemb : List ℚ
  jemb : List ℚ
  pfinal : ℚ
deriving DecidableEq, Repr

/-- The preliminary scoring loop of `match_candidates`: a candidate without
an embedding is skipped with a warning; for a candidate with one, the job's
embedding is passed to `composite_score` as is — when it is `None`,
`np.dot` raises a `TypeError` that propagates out of the route
(`ApiError.internal`). The LLM score is `None` at this stage. -/
def prelimScores (job : Job) : List Candidate → Except ApiError (List PrelimEntry)
  | [] => .ok []
  | c :: rest =>
    match c.embedding with
    | none => prelimScores job rest
    | some ce =>
      match job.embedding with
      | none => .error .internal
      | some je =>
        match prelimScores job rest with
        | .error e => .error e
        | .ok entries =>
          .ok (⟨c, ce, je,
            (composite_score ce je c.skills job.required_skills
              job.nice_to_have_skills none).final⟩ :: entries)

/-- Stable descending insertion by key: the element goes after every
already-placed element of strictly greater key, and before the first of
less-or-equal key (so elements processed earlier stay first on ties). -/
def insertDescBy {α : Type} (key : α → ℚ) (x : α) : List α → List α
  | [] => [x]
  | y :: ys => if key x < key y then y :: insertDescBy key x ys else x :: y :: ys

/-- Python's stable `list.sort(key=…, reverse=True)` as a function. -/
def sortDescBy {α : Type} (key : α → ℚ) : List α → List α
  | [] => []
  | x :: xs => insertDescBy key x (sortDescBy key xs)

/-- The shortlist size `max(5, top_k * 2)` of `src/app.py` line 293. -/
def shortlistCount (top_k : ℤ) : ℕ := (max 5 (2 * top_k)).toNat

/-- Shortlisting stage: sort the preliminary scores descending by final
score and keep the top `max(5, top_k * 2)`. -/
def shortlistOf (job : Job) (cands : List Candidate) (top_k : ℤ) :
    Except ApiError (List PrelimEntry) :=
  match prelimScores job cands with
  | .error e => .error e
  | .ok entries => .ok ((sortDescBy PrelimEntry.pfinal entries).take (shortlistCount top_k))

/-- The sentinel dict `match_candidates` substitutes when the call to
`llm_match_groq` itself raises. -/
def sentinelLLM : PyDict :=
  { summary_bullets := some ["LLM scoring unavailable"]
    key_strengths := some []
    concerns := some []
    reasoning := some "" }

/-- One justification section: emitted only when the dict value is a
nonempty list (Python truthiness of `llm.get(key)`). -/
def sectionList (header : String) (o : Option (List String)) : List String :=
  match o with
  | some (b :: bs) => header :: (b :: bs).map (fun x => "- " ++ x)
  | _ => []

/-- The justification lines built in `match_candidates` from the LLM dict. -/
def justificationLines (llm : PyDict) : List String :=
  sectionList "**Summary:**" llm.summary_bullets ++
    sectionList "\n**Key Strengths:**" llm.key_strengths ++
    sectionList "\n**Concerns:**" llm.concerns ++
    (match llm.reasoning with
     | some r => if r = "" then [] else ["\n**Reasoning:** " ++ r]
     | none => [])

/-- Round every component to 3 decimals (`{k: round(v, 3) for k, v in …}`). -/
def roundComps (c : Comps) : Comps :=
  { similarity := roundTo 3 c.similarity
    req_cover := roundTo 3 c.req_cover
    nice_cover := roundTo 3 c.nice_cover
    llm := roundTo 3 c.llm
    final := roundTo 3 c.final }

/-- The re-scoring body of `match_candidates` for one shortlisted candidate.
`assess` is the guarded call to the qualitative assessor: `.ok d` is a
normal return of `llm_match_groq` and `.error` models `llm_match_groq`
itself raising, in which case the sentinel dict is substituted and the LLM
fit is treated as `None`. The composite is recomputed with the LLM fit
(`llm.get("fit_score", None)` on success). -/
def mkResult (job : Job) (assess : Candidate → Except String PyDict)
    (e : PrelimEntry) : MatchResult :=
  let pair : PyDict × Option ℚ :=
    match assess e.cand with
    | .ok d => (d, d.fit_score)
    | .error _ => (sentinelLLM, none)
  let fc := composite_score e.cemb e.jemb e.cand.skills job.required_skills
    job.nice_to_have_skills pair.2
  { candidate_id := e.cand.id
    candidate_name := e.cand.name
    score := roundTo 2 (100 * fc.final)
    components := roundComps fc
    justification := String.intercalate "\n" (justificationLines pair.1) }

/-- Route `match_candidates` (GET match by job id) from `src/app.py`: validate
`top_k`, look the job up, return `[]` for an empty candidate store, score
all candidates, shortlist, re-score the shortlist with the assessor, sort
descending by score and truncate to `top_k`. -/
def match_candidates (db : DB) (assess : Candidate → Except String PyDict)
    (job_id : Nat) (top_k : ℤ) : Except ApiError (List MatchResult) :=
  if top_k ≤ 0 then .error (.badRequest "top_k must be > 0")
  else
    match getJob db.jobs job_id with
    | none => .error (.notFound job_id)
    | some job =>
      if db.candidates = [] then .ok []
      else
        match shortlistOf job db.candidates top_k with
        | .error e => .error e
        | .ok shortlist =>
          .ok ((sortDescBy MatchResult.score
            (shortlist.map (mkResult job assess))).take top_k.toNat)

/-- The assessor as `match_candidates` actually composes it in the source:
a direct call of `llm_match_groq`, which never raises (its own
`except Exception` branch returns the default dict), wrapped in the route's
`try`. -/
def composedAssess (oracle : Candidate → GroqCall) :
    Candidate → Except String PyDict :=
  fun c => .ok (llm_match_groq (oracle c))

/-- The deployed route: `match_candidates` calling the real
`llm_match_groq`, with `oracle` giving each candidate's HTTP-call outcome. -/
def match_candidates_app (db : DB) (oracle : Candidate → GroqCall)
    (job_id : Nat) (top_k : ℤ) : Except ApiError (List MatchResult) :=
  match_candidates db (composedAssess oracle) job_id top_k

/-- Observable: the number of ranked results of a successful request. -/
def resLength : Except ApiError (List MatchResult) → Option Nat
  | .ok l => some l.length
  | .error _ => none

/-- Lookup of a ranked result by candidate id. -/
def lookupById (i : Nat) : List MatchResult → Option MatchResult
  | [] => none
  | r :: rs => if r.candidate_id = i then some r else lookupById i rs

/-- Observable: the ranked result of the candidate with the given id. -/
def resultFor (x : Except ApiError (List MatchResult)) (i : Nat) : Option MatchResult :=
  match x with
  | .ok l => lookupById i l
  | .error _ => none

-- ---------------------------------------------------------------------------
-- Concrete stores and outcomes used by witnesses and counterexamples
-- ---------------------------------------------------------------------------

/-- A job with a unit embedding and no stated skills. -/
def exJob : Job :=
  { id := 1, title := "Backend role", jd_text := "jd", required_skills := []
    nice_to_have_skills := [], embedding := some [1] }

/-- A candidate with a unit embedding. -/
def exCandA : Candidate :=
  { id := 1, name := "Alice", skills := [], raw_text := "resume a", embedding := some [1] }

/-- A second candidate with a unit embedding. -/
def exCandB : Candidate :=
  { id := 2, name := "Bob", skills := [], raw_text := "resume b", embedding := some [1] }

/-- A store with one job and two candidates. -/
def exDB : DB := { jobs := [exJob], candidates := [exCandA, exCandB] }

/-- A store with one job and one candidate. -/
def exDB1 : DB := { jobs := [exJob], candidates := [exCandA] }

/-- Call outcomes where the assessor times out for candidate 1 and answers
normally (fit 8) for everyone else. -/
def exOracle : Candidate → GroqCall :=
  fun c => if c.id = 1 then .failure "timeout"
    else .response ["strong fit"] (.value 8) []

/-- A job whose embedding generation failed. -/
def exJobNoEmb : Job :=
  { id := 1, title := "t", jd_text := "jd", required_skills := []
    nice_to_have_skills := [], embedding := none }

/-- A store pairing the embeddingless job with an embedded candidate. -/
def exDBJobNoEmb : DB := { jobs := [exJobNoEmb], candidates := [exCandA] }

/-- Ten embedded candidates (ids 1..10). -/
def exCands10 : List Candidate :=
  (List.range 10).map fun i =>
    { id := i + 1, name := "C", skills := [], raw_text := "", embedding := some [1] }

/-- A store with one job and the ten candidates. -/
def exDB10 : DB := { jobs := [exJob], candidates := exCands10 }

/-- The preliminary entry the pipeline computes for `exCandA` against
`exJob`. -/
def exEntryA : PrelimEntry :=
  { cand := exCandA, cemb := [1], jemb := [1]
    pfinal := (composite_score [1] [1] [] [] [] none).final }

/-- The preliminary entry the pipeline computes for `exCandB` against
`exJob`. -/
def exEntryB : PrelimEntry :=
  { cand := exCandB, cemb := [1], jemb := [1]
    pfinal := (composite_score [1] [1] [] [] [] none).final }

/-- Resume text with an explicit years pattern and two role keywords. -/
def exResumeText : String :=
  "Software Engineer and Developer with 5 years of experience"

/-- Resume text with role keywords but no explicit years pattern. -/
def exNoYearsText : String := "Software Engineer and Developer at Acme"

-- ---------------------------------------------------------------------------
-- Theorems about the scorer
-- ---------------------------------------------------------------------------

theorem coverOf_nonneg (cand target : List (List Char)) : 0 ≤ coverOf cand target := by
  unfold coverOf
  positivity

theorem coverOf_le_one (cand target : List (List Char)) : coverOf cand target ≤ 1 := by
  unfold coverOf
  rw [div_le_one (by positivity)]
  have h1 : (target.dedup.filter (fun x => x ∈ cand)).length ≤ target.dedup.length :=
    List.length_filter_le _ _
  have h2 : target.dedup.length ≤ max target.dedup.length 1 := le_max_left _ _
  exact_mod_cast le_trans h1 h2

theorem coverOf_nil (cand : List (List Char)) : coverOf cand [] = 0 := by
  simp [coverOf]

theorem coverOf_eq_one_iff (cand target : List (List Char)) :
    coverOf cand target = 1 ↔ (target ≠ [] ∧ ∀ x ∈ target, x ∈ cand) := by
  unfold coverOf
  rcases eq_or_ne target [] with h | h
  · subst h
    simp
  · have hd : target.dedup ≠ [] := by
      simpa [List.dedup_eq_nil] using h
    have hlen : 0 < target.dedup.length := List.length_pos.mpr hd
    have hmax : max target.dedup.length 1 = target.dedup.length := by omega
    rw [hmax]
    have hpos : (0:ℚ) < (target.dedup.length : ℚ) := by exact_mod_cast hlen
    rw [div_eq_one_iff_eq (ne_of_gt hpos)]
    constructor
    · intro heq
      refine ⟨h, ?_⟩
      have hlf : (target.dedup.filter (fun x => x ∈ cand)).length = target.dedup.length := by
        exact_mod_cast heq
      have hfe : target.dedup.filter (fun x => x ∈ cand) = target.dedup :=
        (List.filter_sublist _).eq_of_length hlf
      have hall := List.filter_eq_self.mp hfe
      intro x hx
      have hxd : x ∈ target.dedup := List.mem_dedup.mpr hx
      simpa using hall x hxd
    · rintro ⟨-, hall⟩
      have : target.dedup.filter (fun x => x ∈ cand) = target.dedup := by
        apply List.filter_eq_self.mpr
        intro x hx
        have : x ∈ target := List.mem_dedup.mp hx
        simpa using hall x this
      rw [this]

/-- Helper: the subset form used in coverOf_eq_one_iff transfers to the
string-level `subsetCI`. -/
theorem coverOf_lower_eq_one_iff (s r : List String) :
    coverOf (lowerList s) (lowerList r) = 1 ↔ (r ≠ [] ∧ subsetCI r s) := by
  rw [coverOf_eq_one_iff]
  constructor
  · rintro ⟨hne, hall⟩
    refine ⟨by simpa [lowerList] using hne, ?_⟩
    intro x hx
    exact hall (lowerStr x) (List.mem_map_of_mem _ hx)
  · rintro ⟨hne, hall⟩
    refine ⟨by simpa [lowerList] using hne, ?_⟩
    intro y hy
    rcases List.mem_map.mp hy with ⟨x, hx, rfl⟩
    exact hall x hx

theorem llmNorm_nonneg (o : Option ℚ) : 0 ≤ llmNorm o := by
  cases o with
  | none => simp [llmNorm]
  | some q => simp only [llmNorm]; exact le_max_left _ _

theorem llmNorm_le_one (o : Option ℚ) : llmNorm o ≤ 1 := by
  cases o with
  | none => simp [llmNorm]
  | some q =>
    simp only [llmNorm]
    exact max_le (by norm_num) (min_le_left _ _)

/-- C2 helper: the final score formula, spelled out. -/
theorem composite_final_eq (ce je : List ℚ) (cs req nice : List String) (ls : Option ℚ) :
    (composite_score ce je cs req nice ls).final =
      45/100 * cosine ce je + 35/100 * (rule_skill_overlap cs req nice).1
        + 1/10 * (rule_skill_overlap cs req nice).2 + 1/10 * llmNorm ls := rfl

/-- C2 helper: bounds on the final score whenever the similarity input is in
[0,1] (the covers and the LLM component are in [0,1] unconditionally). -/
theorem composite_final_bounds (ce je : List ℚ) (cs req nice : List String) (ls : Option ℚ)
    (h0 : 0 ≤ cosine ce je) (h1 : cosine ce je ≤ 1) :
    0 ≤ (composite_score ce je cs req nice ls).final ∧
      (composite_score ce je cs req nice ls).final ≤ 1 := by
  rw [composite_final_eq]
  have hr0 := coverOf_nonneg (lowerList cs) (lowerList req)
  have hr1 := coverOf_le_one (lowerList cs) (lowerList req)
  have hn0 := coverOf_nonneg (lowerList cs) (lowerList nice)
  have hn1 := coverOf_le_one (lowerList cs) (lowerList nice)
  have hl0 := llmNorm_nonneg ls
  have hl1 := llmNorm_le_one ls
  unfold rule_skill_overlap
  constructor <;> nlinarith

/-- C2: for similarity in [0,1] (the covers are in [0,1] by construction),
`composite_score` returns
`final = 0.45·similarity + 0.35·req_cover + 0.10·nice_cover + 0.10·llm_norm`,
where `llm_norm` is the LLM score divided by 10 and clamped to [0,1] when
present and 0 when absent; the weights sum to 1 and are never renormalized
(the same fixed weights multiply the components whether or not an LLM score
is given), and `final` lies in [0,1]. -/
theorem composite_score_spec (ce je : List ℚ) (cs req nice : List String) (ls : Option ℚ) :
    ((composite_score ce je cs req nice ls).final =
        45/100 * (composite_score ce je cs req nice ls).similarity
          + 35/100 * (composite_score ce je cs req nice ls).req_cover
          + 1/10 * (composite_score ce je cs req nice ls).nice_cover
          + 1/10 * (composite_score ce je cs req nice ls).llm) ∧
      ((composite_score ce je cs req nice ls).llm =
        match ls with
        | some q => max 0 (min 1 (q / 10))
        | none => 0) ∧
      ((45:ℚ)/100 + 35/100 + 1/10 + 1/10 = 1) ∧
      (0 ≤ cosine ce je → cosine ce je ≤ 1 →
        0 ≤ (composite_score ce je cs req nice ls).final ∧
          (composite_score ce je cs req nice ls).final ≤ 1) := by
  refine ⟨rfl, ?_, by norm_num, fun h0 h1 => composite_final_bounds ce je cs req nice ls h0 h1⟩
  cases ls <;> rfl

/-- C4: both covers of `rule_skill_overlap` lie in [0,1]; an empty required
(or nice-to-have) list yields a cover of 0, not 1; and on the spec's example
(required `["python","sql"]`, nice `["aws"]`, candidate skills
`["python","java"]`) it returns `req_cover = 0.5` and `nice_cover = 0.0`. -/
theorem rule_skill_overlap_spec :
    (∀ s r n : List String,
        0 ≤ (rule_skill_overlap s r n).1 ∧ (rule_skill_overlap s r n).1 ≤ 1 ∧
        0 ≤ (rule_skill_overlap s r n).2 ∧ (rule_skill_overlap s r n).2 ≤ 1) ∧
      (∀ s n : List String, (rule_skill_overlap s [] n).1 = 0) ∧
      (∀ s r : List String, (rule_skill_overlap s r []).2 = 0) ∧
      rule_skill_overlap ["python", "java"] ["python", "sql"] ["aws"] = (1/2, 0) := by
  refine ⟨?_, ?_, ?_, ?_⟩
  · intro s r n
    exact ⟨coverOf_nonneg _ _, coverOf_le_one _ _, coverOf_nonneg _ _, coverOf_le_one _ _⟩
  · intro s n
    simp [rule_skill_overlap, lowerList, coverOf_nil]
  · intro s r
    simp [rule_skill_overlap, lowerList, coverOf_nil]
  · have h1 : lowerList ["python", "java"] = [['p','y','t','h','o','n'], ['j','a','v','a']] := by
      decide
    have h2 : lowerList ["python", "sql"] = [['p','y','t','h','o','n'], ['s','q','l']] := by
      decide
    have h3 : lowerList ["aws"] = [['a','w','s']] := by decide
    rw [rule_skill_overlap, h1, h2, h3]
    have hn1 : ([['p','y','t','h','o','n'], ['s','q','l']].dedup.filter
        (fun x => x ∈ [['p','y','t','h','o','n'], ['j','a','v','a']])).length = 1 := by decide
    have hd1 : max ([['p','y','t','h','o','n'], ['s','q','l']].dedup.length) 1 = 2 := by decide
    have hn2 : ([['a','w','s']].dedup.filter
        (fun x => x ∈ [['p','y','t','h','o','n'], ['j','a','v','a']])).length = 0 := by decide
    have hd2 : max ([['a','w','s']].dedup.length) 1 = 1 := by decide
    simp only [Prod.mk.injEq, coverOf, hn1, hd1, hn2, hd2]
    norm_num

-- ---------------------------------------------------------------------------
-- C7: algebra of req_cover
-- ---------------------------------------------------------------------------

/-- C7 (amended): for all skill lists S and required lists R, req_cover lies
in [0,1] and req_cover(S, ∅) = 0; req_cover(S,R) = 1 holds if and only if R
is nonempty AND every required skill appears, case-insensitively, among the
candidate's skills. (The unconditional equivalence with `R ⊆ S` claimed by
the spec fails at R = ∅, where the subset relation is vacuously true but the
cover is 0 by the division guard.) -/
theorem req_cover_algebra (S R : List String) :
    (0 ≤ (rule_skill_overlap S R []).1 ∧ (rule_skill_overlap S R []).1 ≤ 1) ∧
      (rule_skill_overlap S [] []).1 = 0 ∧
      ((rule_skill_overlap S R []).1 = 1 ↔ (R ≠ [] ∧ subsetCI R S)) := by
  refine ⟨⟨coverOf_nonneg _ _, coverOf_le_one _ _⟩, ?_, ?_⟩
  · simp [rule_skill_overlap, lowerList, coverOf_nil]
  · exact coverOf_lower_eq_one_iff S R

/-- C7 counterexample: at S = ["python"], R = [], the case-insensitive
subset relation R ⊆ S holds vacuously, yet req_cover is 0, not 1 — the
claimed equivalence `req_cover(S,R) = 1 iff R ⊆ S` is false as stated. -/
theorem req_cover_iff_fails_on_empty :
    ¬(((rule_skill_overlap ["python"] [] []).1 = 1) ↔ subsetCI [] ["python"]) := by
  intro h
  have hsub : subsetCI [] ["python"] := by
    intro x hx
    cases hx
  have h1 : (rule_skill_overlap ["python"] [] []).1 = 1 := h.mpr hsub
  have h0 : (rule_skill_overlap ["python"] [] []).1 = 0 := by
    simp [rule_skill_overlap, lowerList, coverOf_nil]
  rw [h0] at h1
  norm_num at h1

-- ---------------------------------------------------------------------------
-- C8: work-history deduplication
-- ---------------------------------------------------------------------------

theorem dedupGo_sublist (l : List WorkEntry) :
    ∀ seen, (dedupGo seen l).Sublist l := by
  induction l with
  | nil => intro seen; simp [dedupGo]
  | cons a rest ih =>
    intro seen
    rw [dedupGo]
    split
    · exact (ih seen).cons a
    · split
      · exact (ih seen).cons a
      · exact (ih _).cons₂ a

theorem dedupGo_fresh (l : List WorkEntry) :
    ∀ seen e, e ∈ dedupGo seen l →
      (normKey e.company, normKey e.designation) ∉ seen ∧
        (normKey e.designation, normKey e.company) ∉ seen := by
  induction l with
  | nil => intro seen e he; simp [dedupGo] at he
  | cons a rest ih =>
    intro seen e he
    rw [dedupGo] at he
    split at he
    · exact ih seen e he
    · split at he
      · exact ih seen e he
      · rename_i hguard
        rcases List.mem_cons.mp he with rfl | he2
        · push_neg at hguard
          exact hguard
        · have h := ih _ e he2
          constructor
          · intro hc
            exact h.1 (List.mem_cons_of_mem _ (List.mem_cons_of_mem _ hc))
          · intro hc
            exact h.2 (List.mem_cons_of_mem _ (List.mem_cons_of_mem _ hc))

theorem dedupGo_pairwise (l : List WorkEntry) :
    ∀ seen, (dedupGo seen l).Pairwise (fun a b => ¬ dupEntry a b) := by
  induction l with
  | nil => intro seen; simp [dedupGo]
  | cons a rest ih =>
    intro seen
    rw [dedupGo]
    split
    · exact ih seen
    · split
      · exact ih seen
      · refine List.Pairwise.cons ?_ (ih _)
        intro b hb hdup
        have hf := dedupGo_fresh rest _ b hb
        rcases hdup with h1 | h2
        · exact hf.1 (by rw [← h1]; exact List.mem_cons_self _ _)
        · exact hf.2 (by rw [← h2]; exact List.mem_cons_self _ _)

/-- C8: the stored work history is deduplicated by the normalized
(designation, company) pair with the swapped pair also suppressed: no two
retained entries collide (equal or swapped normalized pairs), retained
entries are a subsequence of the input (each duplicate is dropped in favour
of the first-processed entry), and inserting ("Engineer","Acme") then the
swapped ("Acme","Engineer") retains exactly the first entry. -/
theorem dedupWorkHistory_spec :
    (∀ l : List WorkEntry,
        (dedupWorkHistory l).Pairwise (fun a b => ¬ dupEntry a b)) ∧
      (∀ l : List WorkEntry, (dedupWorkHistory l).Sublist l) ∧
      dedupWorkHistory
          [{ designation := "Engineer", company := "Acme" },
           { designation := "Acme", company := "Engineer" }] =
        [{ designation := "Engineer", company := "Acme" }] := by
  refine ⟨fun l => dedupGo_pairwise l [], fun l => dedupGo_sublist l [], ?_⟩
  decide

-- ---------------------------------------------------------------------------
-- C6: total experience years
-- ---------------------------------------------------------------------------

theorem acceptRange_bound (o : Option NumTok) (y : ℚ)
    (h : (o.bind fun t => acceptRange (numTokVal t)) = some y) : 0 < y ∧ y < 50 := by
  cases o with
  | none => simp at h
  | some t =>
    have h' : acceptRange (numTokVal t) = some y := h
    unfold acceptRange at h'
    split at h'
    · rename_i hc
      obtain rfl : numTokVal t = y := by injection h'
      exact hc
    · exact absurd h' (by simp)

/-- C6 (amended): total experience years is taken from an explicit
"<number> years of experience" pattern (label-before-number or
number-before-label), accepted only when strictly between 0 and 50; when no
pattern yields an in-range value the extractor returns no value at all —
the source has no role-keyword fallback. A text containing "5 years of
experience" (and two role keywords) resolves to 5.0. -/
theorem extract_totalYears_spec :
    (∀ text : String, extract_totalYears text = none ∨
        ∃ y, extract_totalYears text = some y ∧ 0 < y ∧ y < 50) ∧
      extract_totalYears exResumeText = some 5 := by
  constructor
  · intro text
    unfold extract_totalYears
    rcases h1 : (searchFrom matchP1At (lowerStr text)).bind
        (fun t => acceptRange (numTokVal t)) with _ | y1
    · rcases h2 : (searchFrom matchP2At (lowerStr text)).bind
          (fun t => acceptRange (numTokVal t)) with _ | y2
      · left
        simp [Option.orElse, h1, h2]
      · right
        exact ⟨y2, by simp [Option.orElse, h1, h2], acceptRange_bound _ _ h2⟩
    · right
      exact ⟨y1, by simp [Option.orElse, h1], acceptRange_bound _ _ h1⟩
  · have h1 : searchFrom matchP1At (lowerStr exResumeText) = none := by decide
    have h2 : searchFrom matchP2At (lowerStr exResumeText) = some ⟨5, 0, 0⟩ := by decide
    unfold extract_totalYears
    rw [h1, h2]
    have hval : numTokVal ⟨5, 0, 0⟩ = 5 := by
      norm_num [numTokVal]
    simp [Option.orElse, acceptRange, hval]
    norm_num

/-- C6 counterexample: on a text with two role-keyword occurrences and no
explicit years pattern, the claimed fallback would credit half a year per
occurrence (1.0 here, per the spec-modelled `specRoleKeywordFallback`), but
the extractor returns no value at all. -/
theorem extract_totalYears_counterexample :
    extract_totalYears exNoYearsText = none ∧
      specRoleKeywordFallback exNoYearsText = 1 := by
  constructor
  · have h1 : searchFrom matchP1At (lowerStr exNoYearsText) = none := by decide
    have h2 : searchFrom matchP2At (lowerStr exNoYearsText) = none := by decide
    unfold extract_totalYears
    rw [h1, h2]
    simp [Option.orElse]
  · have he : countSub (lowerStr exNoYearsText) ['e','n','g','i','n','e','e','r'] = 1 := by
      decide
    have hd : countSub (lowerStr exNoYearsText) ['d','e','v','e','l','o','p','e','r'] = 1 := by
      decide
    have hi : countSub (lowerStr exNoYearsText) ['i','n','t','e','r','n'] = 0 := by decide
    have hm : countSub (lowerStr exNoYearsText) ['m','a','n','a','g','e','r'] = 0 := by decide
    show min ((((countSub (lowerStr exNoYearsText) ['e','n','g','i','n','e','e','r'] +
        countSub (lowerStr exNoYearsText) ['d','e','v','e','l','o','p','e','r'] +
        countSub (lowerStr exNoYearsText) ['i','n','t','e','r','n'] +
        countSub (lowerStr exNoYearsText) ['m','a','n','a','g','e','r'] : ℕ) : ℚ)) / 2) 10 = 1
    rw [he, hd, hi, hm]
    norm_num

-- ---------------------------------------------------------------------------
-- C10: totality of llm_match_groq over call outcomes
-- ---------------------------------------------------------------------------

theorem clampFit_bounds (q : ℚ) : 1 ≤ clampFit q ∧ clampFit q ≤ 10 := by
  unfold clampFit
  exact ⟨le_max_left _ _, max_le (by norm_num) (min_le_left _ _)⟩

/-- C10: `llm_match_groq` is total over external-call outcomes — it returns
a dict for every outcome (it is a total function into `PyDict` because its
whole body is guarded by `except Exception`), the returned fit score is
always present and in [1,10], on any caught exception it is exactly 5, and a
candidate whose assessment failed therefore still receives an LLM component
of 0.5 — not 0 — in the composite score. -/
theorem llm_match_groq_total :
    (∀ call : GroqCall,
        ∃ q, (llm_match_groq call).fit_score = some q ∧ 1 ≤ q ∧ q ≤ 10) ∧
      (∀ msg : String, (llm_match_groq (.failure msg)).fit_score = some 5) ∧
      (∀ (ce je : List ℚ) (cs req nice : List String) (msg : String),
        (composite_score ce je cs req nice
          ((llm_match_groq (.failure msg)).fit_score)).llm = 1/2) := by
  refine ⟨?_, fun _ => rfl, ?_⟩
  · intro call
    cases call with
    | failure msg => exact ⟨5, rfl, by norm_num, by norm_num⟩
    | response bs fit cs =>
      cases fit with
      | absent => exact ⟨clampFit 5, rfl, (clampFit_bounds 5).1, (clampFit_bounds 5).2⟩
      | value q => exact ⟨clampFit q, rfl, (clampFit_bounds q).1, (clampFit_bounds q).2⟩
      | valueErr => exact ⟨clampFit 5, rfl, (clampFit_bounds 5).1, (clampFit_bounds 5).2⟩
      | typeErr => exact ⟨5, rfl, by norm_num, by norm_num⟩
  · intro ce je cs req nice msg
    show llmNorm (some 5) = 1/2
    unfold llmNorm
    norm_num

-- ---------------------------------------------------------------------------
-- Helper lemmas about the pipeline stages
-- ---------------------------------------------------------------------------

theorem length_insertDescBy {α : Type} (key : α → ℚ) (x : α) (l : List α) :
    (insertDescBy key x l).length = l.length + 1 := by
  induction l with
  | nil => rfl
  | cons y ys ih =>
    rw [insertDescBy]
    split
    · simp [ih]
    · simp

theorem length_sortDescBy {α : Type} (key : α → ℚ) (l : List α) :
    (sortDescBy key l).length = l.length := by
  induction l with
  | nil => rfl
  | cons x xs ih =>
    rw [sortDescBy, length_insertDescBy, ih, List.length_cons]

theorem mem_insertDescBy {α : Type} (key : α → ℚ) (x a : α) (l : List α) :
    a ∈ insertDescBy key x l ↔ a = x ∨ a ∈ l := by
  induction l with
  | nil => simp [insertDescBy]
  | cons y ys ih =>
    rw [insertDescBy]
    split
    · simp only [List.mem_cons, ih]
      tauto
    · simp only [List.mem_cons]

theorem mem_sortDescBy {α : Type} (key : α → ℚ) (a : α) (l : List α) :
    a ∈ sortDescBy key l ↔ a ∈ l := by
  induction l with
  | nil => simp [sortDescBy]
  | cons x xs ih =>
    rw [sortDescBy, mem_insertDescBy, ih, List.mem_cons]

theorem prelimScores_mem (job : Job) (cs : List Candidate) (P : List PrelimEntry)
    (h : prelimScores job cs = .ok P) :
    ∀ e ∈ P, e.cand ∈ cs ∧ e.cand.embedding = some e.cemb := by
  induction cs generalizing P with
  | nil =>
    rw [prelimScores] at h
    obtain rfl : ([] : List PrelimEntry) = P := by injection h
    intro e he
    cases he
  | cons c rest ih =>
    rw [prelimScores] at h
    cases hce : c.embedding with
    | none =>
      rw [hce] at h
      intro e he
      have := ih P h e he
      exact ⟨List.mem_cons_of_mem _ this.1, this.2⟩
    | some ce =>
      rw [hce] at h
      cases hje : job.embedding with
      | none => rw [hje] at h; cases h
      | some je =>
        rw [hje] at h
        cases hrest : prelimScores job rest with
        | error e0 => rw [hrest] at h; cases h
        | ok Q =>
          rw [hrest] at h
          obtain rfl : _ :: Q = P := by injection h
          intro e he
          rcases List.mem_cons.mp he with rfl | he2
          · exact ⟨List.mem_cons_self _ _, hce⟩
          · have := ih Q hrest e he2
            exact ⟨List.mem_cons_of_mem _ this.1, this.2⟩

theorem prelimScores_all_skipped (job : Job) (cs : List Candidate)
    (h : ∀ c ∈ cs, c.embedding = none) : prelimScores job cs = .ok [] := by
  induction cs with
  | nil => rfl
  | cons c rest ih =>
    rw [prelimScores, h c (List.mem_cons_self _ _)]
    exact ih fun c' hc' => h c' (List.mem_cons_of_mem _ hc')

theorem prelimScores_err_of_job_none (job : Job) (hj : job.embedding = none)
    (cs : List Candidate) (c : Candidate) (hc : c ∈ cs) (v : List ℚ)
    (hv : c.embedding = some v) : prelimScores job cs = .error .internal := by
  induction cs with
  | nil => cases hc
  | cons a rest ih =>
    rw [prelimScores]
    cases hae : a.embedding with
    | some ae => rw [hj]
    | none =>
      rcases List.mem_cons.mp hc with rfl | hc2
      · rw [hae] at hv; cases hv
      · exact ih hc2

theorem shortlistOf_ok (job : Job) (cs : List Candidate) (k : ℤ) (P : List PrelimEntry)
    (h : prelimScores job cs = .ok P) :
    shortlistOf job cs k = .ok ((sortDescBy PrelimEntry.pfinal P).take (shortlistCount k)) := by
  rw [shortlistOf, h]

theorem shortlistOf_length (job : Job) (cs : List Candidate) (k : ℤ) (P : List PrelimEntry)
    (h : prelimScores job cs = .ok P) :
    Except.map List.length (shortlistOf job cs k) = .ok (min (shortlistCount k) P.length) := by
  rw [shortlistOf_ok job cs k P h, Except.map, List.length_take, length_sortDescBy]

-- ---------------------------------------------------------------------------
-- C3: shortlist size
-- ---------------------------------------------------------------------------

/-- C3 (amended): after sorting the preliminarily scored candidates
descending by preliminary final score, the pipeline promotes exactly the top
`max(5, 2·top_k)` of them — not `max(10, 2·top_k)` — to the qualitative
re-scoring stage when at least that many scored candidates exist, and it
never promotes fewer than `top_k` candidates when more than `top_k` scored
candidates exist. -/
theorem shortlist_spec :
    (∀ (job : Job) (cs : List Candidate) (k : ℤ) (P : List PrelimEntry),
        prelimScores job cs = .ok P →
          shortlistOf job cs k =
            .ok ((sortDescBy PrelimEntry.pfinal P).take (shortlistCount k))) ∧
      (∀ (job : Job) (cs : List Candidate) (k : ℤ) (P : List PrelimEntry),
        prelimScores job cs = .ok P →
          Except.map List.length (shortlistOf job cs k) =
            .ok (min (shortlistCount k) P.length)) ∧
      (∀ (job : Job) (cs : List Candidate) (k : ℤ) (P : List PrelimEntry),
        prelimScores job cs = .ok P → shortlistCount k ≤ P.length →
          Except.map List.length (shortlistOf job cs k) = .ok (shortlistCount k)) ∧
      (∀ (job : Job) (cs : List Candidate) (k : ℤ) (P : List PrelimEntry),
        prelimScores job cs = .ok P → 0 < k → k.toNat < P.length →
          k.toNat ≤ ((sortDescBy PrelimEntry.pfinal P).take (shortlistCount k)).length) := by
  refine ⟨shortlistOf_ok, shortlistOf_length, ?_, ?_⟩
  · intro job cs k P h hle
    rw [shortlistOf_length job cs k P h, min_eq_left hle]
  · intro job cs k P h hk hlt
    rw [List.length_take, length_sortDescBy]
    have h1 : k.toNat ≤ shortlistCount k := by
      unfold shortlistCount
      have : k ≤ max 5 (2 * k) := le_trans (by omega) (le_max_right _ _)
      exact Int.toNat_le_toNat this
    exact le_min h1 (le_of_lt hlt)

/-- C3 counterexample: with 10 preliminarily scored candidates and top_k = 2
the pipeline promotes 5 candidates (`max(5, 2·2)`), not the
`max(10, 2·2) = 10` the claim states. -/
theorem shortlist_counterexample :
    Except.map List.length (prelimScores exJob exCands10) = .ok 10 ∧
      Except.map List.length (shortlistOf exJob exCands10 2) = .ok 5 ∧
      (5 : ℕ) ≠ (max 10 (2 * 2) : ℤ).toNat := by
  obtain ⟨P, hP⟩ : ∃ P, prelimScores exJob exCands10 = .ok P := ⟨_, rfl⟩
  have h10 : Except.map List.length (prelimScores exJob exCands10) = .ok 10 := rfl
  have hlen : P.length = 10 := by
    rw [hP] at h10
    injection h10
  refine ⟨h10, ?_, by decide⟩
  rw [shortlistOf_length exJob exCands10 2 P hP, hlen]
  rfl

-- ---------------------------------------------------------------------------
-- C9: error contract of the rank operation
-- ---------------------------------------------------------------------------

/-- C9: the rank operation's error contract — `top_k ≤ 0` is rejected as a
caller input error (HTTP 400); with a valid `top_k`, a job id that matches
no stored job yields NotFound (HTTP 404); an empty candidate pool yields an
empty ranked list, as does a pool in which no candidate has an embedding;
and concretely, `top_k = 3` with exactly one stored (embedded) candidate
returns one result. -/
theorem rank_error_contract :
    (∀ (db : DB) (a : Candidate → Except String PyDict) (jid : Nat) (k : ℤ),
        k ≤ 0 → match_candidates db a jid k = .error (.badRequest "top_k must be > 0")) ∧
      (∀ (db : DB) (a : Candidate → Except String PyDict) (jid : Nat) (k : ℤ),
        0 < k → getJob db.jobs jid = none →
          match_candidates db a jid k = .error (.notFound jid)) ∧
      (∀ (db : DB) (a : Candidate → Except String PyDict) (jid : Nat) (k : ℤ) (j : Job),
        0 < k → getJob db.jobs jid = some j → db.candidates = [] →
          match_candidates db a jid k = .ok []) ∧
      (∀ (db : DB) (a : Candidate → Except String PyDict) (jid : Nat) (k : ℤ) (j : Job),
        0 < k → getJob db.jobs jid = some j →
          (∀ c ∈ db.candidates, c.embedding = none) →
          match_candidates db a jid k = .ok []) ∧
      resLength (match_candidates_app exDB1 exOracle 1 3) = some 1 := by
  refine ⟨?_, ?_, ?_, ?_, ?_⟩
  · intro db a jid k hk
    rw [match_candidates, if_pos hk]
  · intro db a jid k hk hj
    simp only [match_candidates, hj, if_neg (show ¬k ≤ 0 by omega)]
  · intro db a jid k j hk hj hc
    simp only [match_candidates, hj, hc, if_neg (show ¬k ≤ 0 by omega)]
    simp
  · intro db a jid k j hk hj hnone
    simp only [match_candidates, hj, if_neg (show ¬k ≤ 0 by omega)]
    by_cases hc : db.candidates = []
    · simp only [hc]
      simp
    · rw [if_neg hc,
        shortlistOf_ok j db.candidates k [] (prelimScores_all_skipped j db.candidates hnone)]
      simp [sortDescBy]
  · rfl

-- ---------------------------------------------------------------------------
-- C5: exclusion of candidates without embeddings; absent job embedding
-- ---------------------------------------------------------------------------

/-- C5 (amended): a candidate whose embedding is absent is excluded from
ranking entirely — it is dropped at preliminary scoring and every returned
result corresponds to a stored candidate that has an embedding. An absent
job embedding, however, is NOT a graceful exclusion: the warning-only branch
proceeds into `composite_score`, where `np.dot(vec, None)` raises and the
whole request fails with an internal error whenever at least one candidate
has an embedding. -/
theorem missing_embedding_excluded :
    (∀ (job : Job) (cs : List Candidate) (P : List PrelimEntry),
        prelimScores job cs = .ok P → ∀ e ∈ P, e.cand.embedding ≠ none) ∧
      (∀ (db : DB) (a : Candidate → Except String PyDict) (jid : Nat) (k : ℤ)
          (res : List MatchResult),
        match_candidates db a jid k = .ok res →
          ∀ r ∈ res, ∃ c ∈ db.candidates, c.id = r.candidate_id ∧ c.embedding ≠ none) ∧
      (∀ (db : DB) (a : Candidate → Except String PyDict) (jid : Nat) (k : ℤ)
          (j : Job) (c : Candidate) (v : List ℚ),
        0 < k → getJob db.jobs jid = some j → j.embedding = none →
          c ∈ db.candidates → c.embedding = some v →
          match_candidates db a jid k = .error .internal) := by
  refine ⟨?_, ?_, ?_⟩
  · intro job cs P h e he
    rw [(prelimScores_mem job cs P h e he).2]
    exact fun hc => Option.noConfusion hc
  · intro db a jid k res h r hr
    rw [match_candidates] at h
    split at h
    · cases h
    · cases hgj : getJob db.jobs jid with
      | none =>
        simp only [hgj] at h
        exact Except.noConfusion h
      | some job =>
        simp only [hgj] at h
        split at h
        · obtain rfl : ([] : List MatchResult) = res := by injection h
          cases hr
        · cases hsl : shortlistOf job db.candidates k with
          | error e0 =>
            simp only [hsl] at h
            exact Except.noConfusion h
          | ok sl =>
            simp only [hsl] at h
            obtain rfl :
                ((sortDescBy MatchResult.score (sl.map (mkResult job a))).take k.toNat) =
                  res := by injection h
            have hr2 : r ∈ sortDescBy MatchResult.score (sl.map (mkResult job a)) :=
              List.mem_of_mem_take hr
            have hr3 : r ∈ sl.map (mkResult job a) := (mem_sortDescBy _ _ _).mp hr2
            rcases List.mem_map.mp hr3 with ⟨e, he, rfl⟩
            rw [shortlistOf] at hsl
            cases hps : prelimScores job db.candidates with
            | error e0 =>
              rw [hps] at hsl
              exact Except.noConfusion hsl
            | ok P =>
              simp only [hps] at hsl
              obtain rfl :
                  ((sortDescBy PrelimEntry.pfinal P).take (shortlistCount k)) = sl := by
                injection hsl
              have he2 : e ∈ sortDescBy PrelimEntry.pfinal P := List.mem_of_mem_take he
              have he3 : e ∈ P := (mem_sortDescBy _ _ _).mp he2
              have hm := prelimScores_mem job db.candidates P hps e he3
              refine ⟨e.cand, hm.1, rfl, ?_⟩
              rw [hm.2]
              exact fun hc => Option.noConfusion hc
  · intro db a jid k j c v hk hj hje hc hv
    simp only [match_candidates, hj, if_neg (show ¬k ≤ 0 by omega)]
    rw [if_neg (show ¬db.candidates = [] from fun hnil => by rw [hnil] at hc; cases hc)]
    rw [shortlistOf, prelimScores_err_of_job_none j hje db.candidates c hc v hv]

/-- C5 counterexample: a stored job whose embedding is absent together with
one embedded candidate makes the ranking request fail with an internal
error — the case is not excluded from ranking, it aborts the request. -/
theorem missing_job_embedding_counterexample :
    match_candidates_app exDBJobNoEmb exOracle 1 3 = .error .internal := rfl

-- ---------------------------------------------------------------------------
-- C1: behaviour when the qualitative assessor's call fails
-- ---------------------------------------------------------------------------

theorem sortDescBy_two {α : Type} (key : α → ℚ) (x y : α) :
    sortDescBy key [x, y] = [x, y] ∨ sortDescBy key [x, y] = [y, x] := by
  rw [sortDescBy, sortDescBy, sortDescBy, insertDescBy, insertDescBy]
  split
  · right; rfl
  · left; rfl

theorem llmNorm_some_five : llmNorm (some 5) = 1/2 := by
  unfold llmNorm
  norm_num

theorem roundTo_three_half : roundTo 3 (1/2 : ℚ) = 1/2 := by
  norm_num [roundTo, pyRoundInt]

theorem roundTo_three_zero : roundTo 3 (0 : ℚ) = 0 := by
  norm_num [roundTo, pyRoundInt]

theorem mkResult_of_assess_err (job : Job) (assess : Candidate → Except String PyDict)
    (e : PrelimEntry) (msg : String) (h : assess e.cand = .error msg) :
    mkResult job assess e =
      { candidate_id := e.cand.id
        candidate_name := e.cand.name
        score := roundTo 2 (100 * (composite_score e.cemb e.jemb e.cand.skills
          job.required_skills job.nice_to_have_skills none).final)
        components := roundComps (composite_score e.cemb e.jemb e.cand.skills
          job.required_skills job.nice_to_have_skills none)
        justification := String.intercalate "\n" (justificationLines sentinelLLM) } := by
  rw [mkResult, h]

theorem mkResult_of_oracle_failure (job : Job) (oracle : Candidate → GroqCall)
    (e : PrelimEntry) (msg : String) (h : oracle e.cand = .failure msg) :
    mkResult job (composedAssess oracle) e =
      { candidate_id := e.cand.id
        candidate_name := e.cand.name
        score := roundTo 2 (100 * (composite_score e.cemb e.jemb e.cand.skills
          job.required_skills job.nice_to_have_skills (some 5)).final)
        components := roundComps (composite_score e.cemb e.jemb e.cand.skills
          job.required_skills job.nice_to_have_skills (some 5))
        justification := String.intercalate "\n"
          ["\n**Concerns:**", "- " ++ msg] } := by
  rw [mkResult, composedAssess, h]
  rfl

/-- C1 (amended): the "LLM scoring unavailable" sentinel with llm = 0 is
substituted only when `llm_match_groq` itself raises — which its own
`except Exception` prevents for call failures. When the external call fails
(timeout, malformed response, network error) `llm_match_groq` catches the
error internally and returns `fit_score = 5`, so the candidate's rounded
`llm` component is 0.5, not 0, and the justification consists only of a
Concerns section carrying the error message, with no "LLM scoring
unavailable" marker. In either case ranking proceeds: the number of returned
results never depends on the assessor's outcomes, so one candidate's LLM
failure never aborts the batch. -/
theorem llm_failure_handling :
    (∀ (job : Job) (oracle : Candidate → GroqCall) (e : PrelimEntry) (msg : String),
        oracle e.cand = .failure msg →
          (mkResult job (composedAssess oracle) e).components.llm = 1/2 ∧
            (mkResult job (composedAssess oracle) e).justification =
              String.intercalate "\n" ["\n**Concerns:**", "- " ++ msg]) ∧
      (∀ (job : Job) (assess : Candidate → Except String PyDict) (e : PrelimEntry)
          (msg : String),
        assess e.cand = .error msg →
          (mkResult job assess e).components.llm = 0 ∧
            (mkResult job assess e).justification =
              "**Summary:**\n- LLM scoring unavailable") ∧
      (∀ (db : DB) (o1 o2 : Candidate → GroqCall) (jid : Nat) (k : ℤ),
        resLength (match_candidates_app db o1 jid k) =
          resLength (match_candidates_app db o2 jid k)) := by
  refine ⟨?_, ?_, ?_⟩
  · intro job oracle e msg h
    rw [mkResult_of_oracle_failure job oracle e msg h]
    refine ⟨?_, rfl⟩
    show roundTo 3 (llmNorm (some 5)) = 1/2
    rw [llmNorm_some_five, roundTo_three_half]
  · intro job assess e msg h
    rw [mkResult_of_assess_err job assess e msg h]
    constructor
    · show roundTo 3 (llmNorm none) = 0
      show roundTo 3 (0 : ℚ) = 0
      exact roundTo_three_zero
    · show String.intercalate "\n" (justificationLines sentinelLLM)
        = "**Summary:**\n- LLM scoring unavailable"
      decide
  · intro db o1 o2 jid k
    unfold match_candidates_app match_candidates
    split
    · rfl
    · cases hgj : getJob db.jobs jid with
      | none => rfl
      | some job =>
        simp only []
        split
        · rfl
        · cases hsl : shortlistOf job db.candidates k with
          | error e0 => rfl
          | ok sl =>
            simp only [resLength, List.length_take, length_sortDescBy, List.length_map]

/-- C1 counterexample: assessor times out for candidate 1 of two shortlisted
candidates. Ranking still returns 2 results, but the timed-out candidate's
`llm` component is 0.5 — not 0 — and its justification is exactly a Concerns
section carrying the error message, with no "LLM scoring unavailable"
marker. -/
theorem llm_failure_counterexample :
    resLength (match_candidates_app exDB exOracle 1 2) = some 2 ∧
      (resultFor (match_candidates_app exDB exOracle 1 2) 1).map
        (fun r => r.components.llm) = some (1/2) ∧
      (resultFor (match_candidates_app exDB exOracle 1 2) 1).map
        (fun r => r.justification) = some "\n**Concerns:**\n- timeout" := by
  have h1 : prelimScores exJob exDB.candidates = .ok [exEntryA, exEntryB] := rfl
  have hget : getJob exDB.jobs 1 = some exJob := rfl
  have hidA : (mkResult exJob (composedAssess exOracle) exEntryA).candidate_id = 1 := rfl
  have hidB : (mkResult exJob (composedAssess exOracle) exEntryB).candidate_id = 2 := rfl
  have hllmA : (mkResult exJob (composedAssess exOracle) exEntryA).components.llm
      = roundTo 3 (llmNorm (some 5)) := rfl
  have hvalA : (mkResult exJob (composedAssess exOracle) exEntryA).components.llm = 1/2 := by
    rw [hllmA, llmNorm_some_five, roundTo_three_half]
  have hjuA : (mkResult exJob (composedAssess exOracle) exEntryA).justification
      = "\n**Concerns:**\n- timeout" := by decide
  have htakeP : ∀ x y : PrelimEntry, List.take (shortlistCount 2) [x, y] = [x, y] :=
    fun x y => rfl
  have htakeR : ∀ x y : MatchResult, List.take ((2:ℤ).toNat) [x, y] = [x, y] :=
    fun x y => rfl
  have hshort0 : shortlistOf exJob exDB.candidates 2 =
      .ok ((sortDescBy PrelimEntry.pfinal [exEntryA, exEntryB]).take (shortlistCount 2)) :=
    shortlistOf_ok exJob exDB.candidates 2 _ h1
  have hmc0 : match_candidates_app exDB exOracle 1 2
      = .ok ((sortDescBy MatchResult.score
          (((sortDescBy PrelimEntry.pfinal [exEntryA, exEntryB]).take
            (shortlistCount 2)).map
            (mkResult exJob (composedAssess exOracle)))).take ((2:ℤ).toNat)) := by
    simp only [match_candidates_app, match_candidates, hget,
      if_neg (show ¬(2:ℤ) ≤ 0 by decide),
      if_neg (show ¬exDB.candidates = [] by decide), hshort0]
  rcases sortDescBy_two PrelimEntry.pfinal exEntryA exEntryB with hs | hs <;>
    rw [hs, htakeP, List.map_cons, List.map_cons, List.map_nil] at hmc0
  · rcases sortDescBy_two MatchResult.score
        (mkResult exJob (composedAssess exOracle) exEntryA)
        (mkResult exJob (composedAssess exOracle) exEntryB) with hs2 | hs2 <;>
      rw [hs2, htakeR] at hmc0 <;>
      exact ⟨by rw [hmc0]; rfl,
        by rw [hmc0]; simp [resultFor, lookupById, hidA, hidB, hvalA],
        by rw [hmc0]; simp [resultFor, lookupById, hidA, hidB, hjuA]⟩
  · rcases sortDescBy_two MatchResult.score
        (mkResult exJob (composedAssess exOracle) exEntryB)
        (mkResult exJob (composedAssess exOracle) exEntryA) with hs2 | hs2 <;>
      rw [hs2, htakeR] at hmc0 <;>
      exact ⟨by rw [hmc0]; rfl,
        by rw [hmc0]; simp [resultFor, lookupById, hidA, hidB, hvalA],
        by rw [hmc0]; simp [resultFor, lookupById, hidA, hidB, hjuA]⟩
